import Mathlib

/-!
Verification of the Monad-All_Oracles switchboard update script
(`switchboard/script/run.ts`).

Strings are embedded as `List Char` so that character-level operations of
the script (prefix tests, padding, trimming) can be reasoned about
directly.  Numbers of type `bigint` are embedded as `Int` (with the
truncating division/remainder `Int.tdiv` / `Int.tmod`, matching
JavaScript `bigint` semantics); unsigned quantities (balances, fees) as
`Nat`.
-/

/-- Character strings of the script, embedded as lists of characters. -/
abbrev Str := List Char

/-- Numeric value of a decimal digit character ('0'..'9'). -/
def charToDigit (c : Char) : Nat := c.toNat - 48

/-- Value of a big-endian list of decimal digit characters. -/
def digitsVal (s : Str) : Nat :=
  s.foldl (fun a c => a * 10 + charToDigit c) 0

/-- Fuel-bounded big-endian decimal digit expansion; `fuel ≥ n` is enough
fuel. Embeds the digit loop underlying JavaScript `BigInt.toString()`. -/
def digitsAux : Nat → Nat → Str
  | 0, _ => []
  | fuel + 1, n =>
    if n = 0 then [] else digitsAux fuel (n / 10) ++ [Nat.digitChar (n % 10)]

/-- Decimal representation of a natural number, embedding
JavaScript `BigInt.prototype.toString()` on nonnegative values. -/
def natToChars (n : Nat) : Str :=
  if n = 0 then ['0'] else digitsAux n n

/-- Decimal representation of an integer, embedding
JavaScript `BigInt.prototype.toString()`. -/
def intToChars (i : Int) : Str :=
  if i < 0 then '-' :: natToChars i.natAbs else natToChars i.natAbs

/-- Embeds JavaScript `String.prototype.padStart(n, c)`. -/
def padStart (s : Str) (n : Nat) (c : Char) : Str :=
  List.replicate (n - s.length) c ++ s

/-- Embeds `s.replace(/0+$/, '')`: removes the maximal run of trailing
'0' characters (run.ts line 27). -/
def dropTrailingZeros (s : Str) : Str :=
  (s.reverse.dropWhile (fun c => c == '0')).reverse

/-- Embeds `hash.startsWith('0x')` (run.ts line 14). -/
def startsWith0x : Str → Bool
  | '0' :: 'x' :: _ => true
  | _ => false

/-- Embeds `normalizeFeedHash` (run.ts lines 13-15):
`hash.startsWith('0x') ? hash : '0x' + hash`. -/
def normalizeFeedHash (hash : Str) : Str :=
  if startsWith0x hash then hash else '0' :: 'x' :: hash

/-- Embeds the prefix stripping of `fetchFeedData` (run.ts lines 113-115):
`h.startsWith('0x') ? h.slice(2) : h`. -/
def strip0x (s : Str) : Str :=
  if startsWith0x s then s.drop 2 else s

/-- Embeds `formatValue` (run.ts lines 17-29).  JavaScript `bigint`
division and remainder truncate toward zero, hence `Int.tdiv` and
`Int.tmod`. -/
def formatValue (value : Int) (decimals : Nat) : Str :=
  let divisor : Int := 10 ^ decimals
  let whole := value.tdiv divisor
  let fraction := value.tmod divisor
  if fraction = 0 then
    intToChars whole
  else
    let fractionStr := padStart (intToChars fraction) decimals '0'
    let trimmed := dropTrailingZeros fractionStr
    intToChars whole ++ '.' :: trimmed

/-- The characters after the first '.' of a string (empty when there is
no '.'). -/
def fracPart (s : Str) : Str :=
  (s.dropWhile (fun c => !(c == '.'))).tail

/-- Modelled from the spec: the repository contains no parser for the
decimal strings produced by `formatValue`; the spec's round-trip property
("formatting a scaled integer value and re-parsing yields the original
integer") needs one, so this is the standard fixed-point decimal parser
at scale `d`, following the spec's words.  Unsigned part: optional
fractional digits after a '.', at most `d` of them, right-padded with
zeros to `d` places. -/
def parseScaledNat (s : Str) (d : Nat) : Option Nat :=
  let intPart := s.takeWhile (fun c => !(c == '.'))
  let rest := s.dropWhile (fun c => !(c == '.'))
  if intPart = [] then none
  else if !(intPart.all Char.isDigit) then none
  else
    match rest with
    | [] => some (digitsVal intPart * 10 ^ d)
    | _ :: frac =>
      if frac = [] then none
      else if !(frac.all Char.isDigit) then none
      else if d < frac.length then none
      else some (digitsVal intPart * 10 ^ d + digitsVal frac * 10 ^ (d - frac.length))

/-- Modelled from the spec: signed fixed-point decimal parser at scale
`d` (see `parseScaledNat`). -/
def parseScaled (s : Str) (d : Nat) : Option Int :=
  if s.head? = some '-' then
    (parseScaledNat (s.drop 1) d).map (fun n => -(n : Int))
  else
    (parseScaledNat s d).map (fun n => (n : Int))

/-- Embeds the deployment lookup key computation (run.ts line 203):
`config.network === 'monad-testnet' ? 'monadTestnet' : 'monadTestnet'`. -/
def networkKey (network : String) : String :=
  if network = "monad-testnet" then "monadTestnet" else "monadTestnet"

/-- Embeds the `NetworkConfig` interface (run.ts lines 43-50). -/
structure NetworkConfig where
  name : String
  chainId : Nat
  explorer : String
  switchboard : String
  verifier : Option String
  queue : Option String

/-- Embeds the static `NETWORKS` table (run.ts lines 52-65) as a lookup
function (JavaScript indexing of the record returns `undefined`, i.e.
`none`, on unknown keys). -/
def NETWORKS (net : String) : Option NetworkConfig :=
  if net = "monad-testnet" then
    some { name := "Monad Testnet", chainId := 10143,
           explorer := "https://testnet.monadscan.io",
           switchboard := "0xD3860E2C66cBd5c969Fa7343e6912Eff0416bA33",
           verifier := none, queue := none }
  else if net = "monad-mainnet" then
    some { name := "Monad Mainnet", chainId := 143,
           explorer := "https://mainnet-beta.monvision.io",
           switchboard := "0xB7F03eee7B9F56347e32cC71DaD65B303D5a0E67",
           verifier := none, queue := none }
  else none

/-- Models `ethers.formatEther` (external library): fixed-point decimal
at 18 places, always carrying at least one fractional digit. -/
def formatEtherS (wei : Nat) : String :=
  let s := formatValue (wei : Int) 18
  String.mk (if '.' ∈ s then s else s ++ ['.', '0'])

/-- The errors thrown by the script, one constructor per `throw` site,
carrying the dynamic parts of the thrown message. -/
inductive WError
  | missingRpcUrl
  | missingPrivateKey
  | unknownNetwork (net : String)
  | deploymentsNotFound
  | noDeployment (key : String)
  | fetchFailed (inner : String)
  | insufficientBalance (need bal : Nat)
  | txWaitFailed
deriving DecidableEq

/-- The message of each error, exactly as built at the `throw` sites of
run.ts (lines 174, 179, 185, 34, 207, 156, 251; `txWaitFailed` is the
revert error raised by the library `tx.wait()` call). -/
def WError.message : WError → String
  | .missingRpcUrl => "❌ RPC_URL environment variable is required"
  | .missingPrivateKey => "❌ PRIVATE_KEY environment variable is required"
  | .unknownNetwork n => "❌ Unknown network: " ++ n
  | .deploymentsNotFound => "deployments.json not found. Please deploy the contract first."
  | .noDeployment k => "❌ No deployment found for " ++ k ++ ". Please deploy the contract first."
  | .fetchFailed m => "Failed to fetch feed data: " ++ m
  | .insufficientBalance need bal =>
      "❌ Insufficient balance. Need " ++ formatEtherS need ++ " ETH, have "
        ++ formatEtherS bal ++ " ETH"
  | .txWaitFailed => "transaction execution reverted"

/-- The shape of the oracle-gateway (Crossbar) response consumed by
`fetchFeedData` (run.ts lines 124-151): `encoded` may be absent,
`medianResponses` may be absent or empty (both modelled by the empty
list / `none`). -/
structure GatewayResponse where
  encoded : Option Str
  medianResponses : List Int
  timestamp : Int
  slot : Nat
  numOracles : Nat
deriving DecidableEq

/-- The record returned by `fetchFeedData` (run.ts lines 145-152). -/
structure FeedData where
  feedHash : Str
  value : Int
  timestamp : Int
  slot : Nat
  numOracles : Nat
  encoded : Str
deriving DecidableEq

/-- Embeds the response-shape checks of `fetchFeedData`
(run.ts lines 129-157): a missing `encoded` payload or a missing first
median response raises an error that the surrounding `catch` re-wraps
with the prefix `Failed to fetch feed data: `. -/
def fetchFeedData (resp : GatewayResponse) (feedHash : Str) : Except WError FeedData :=
  match resp.encoded with
  | none => .error (.fetchFailed "No encoded data in response")
  | some enc =>
    match resp.medianResponses.head? with
    | none => .error (.fetchFailed "No median response in data")
    | some v =>
      .ok { feedHash := normalizeFeedHash feedHash, value := v,
            timestamp := resp.timestamp, slot := resp.slot,
            numOracles := resp.numOracles, encoded := enc }

/-- One run's environment: the process configuration (run.ts lines
71-78) together with the outcome of every external interaction the
script performs (file system, ledger RPC, oracle gateway, contract view
calls), so that the straight-line workflow becomes a pure function of
it. -/
structure Env where
  rpcUrl : String
  privateKey : String
  network : String
  feedHash : Str
  maxPriceAge : Int
  maxDeviationBps : Int
  deploymentsExists : Bool
  deployments : String → Option String
  signerAddress : String
  balance : Nat
  gateway : GatewayResponse
  fee : Nat
  txOk : Bool
  contractPrice : Int
  contractTimestamp : Nat
  contractSlot : Nat
  contractFresh : Bool
  contractAge : Nat
  contractMaxPriceAge : Nat
  contractMaxDeviationBps : Nat

/-- The observable external interactions of one run, in order: every
network call the script issues. -/
inductive Event
  | balanceQuery (addr : String)
  | gatewayFetch (feedHash : Str) (cluster : String)
  | feeQuery (payloads : List Str)
  | submitTx (payloads : List Str) (feedIds : List Str) (value : Nat)
  | txWait
  | readPrice (feedId : Str)
  | readIsFresh (feedId : Str)
  | readPriceAge (feedId : Str)
  | readMaxPriceAge
  | readMaxDeviationBps
deriving DecidableEq

/-- The values read back from the consumer contract and reported at the
end of a successful run (run.ts lines 298-313). -/
structure Report where
  value : Int
  timestamp : Nat
  slot : Nat
  fresh : Bool
  age : Nat
  maxPriceAge : Nat
  maxDeviationBps : Nat
deriving DecidableEq

/-- Embeds `updatePrices` (run.ts lines 164-318) as a pure function from
the run environment to the ordered list of network calls issued and the
final outcome.  The step order follows the source: configuration
validation, deployments-file load and lookup, balance query, gateway
fetch, fee query, balance guard, transaction submission and wait,
read-back view calls.  (`signer.getAddress()` is a local computation in
ethers, not a network call.) -/
def updatePrices (env : Env) : List Event × Except WError Report :=
  if env.rpcUrl = "" then ([], .error .missingRpcUrl)
  else if env.privateKey = "" then ([], .error .missingPrivateKey)
  else
    match NETWORKS env.network with
    | none => ([], .error (.unknownNetwork env.network))
    | some _ =>
      if env.deploymentsExists = false then ([], .error .deploymentsNotFound)
      else
        match env.deployments (networkKey env.network) with
        | none => ([], .error (.noDeployment (networkKey env.network)))
        | some _ =>
          let tr1 : List Event :=
            [.balanceQuery env.signerAddress,
             .gatewayFetch (strip0x (normalizeFeedHash env.feedHash)) "mainnet"]
          match fetchFeedData env.gateway env.feedHash with
          | .error e => (tr1, .error e)
          | .ok fd =>
            let tr2 := tr1 ++ [.feeQuery [fd.encoded]]
            if env.balance < env.fee then
              (tr2, .error (.insufficientBalance env.fee env.balance))
            else
              let fid := normalizeFeedHash env.feedHash
              let tr3 := tr2 ++ [.submitTx [fd.encoded] [fid] env.fee, .txWait]
              if env.txOk = false then (tr3, .error .txWaitFailed)
              else
                let tr4 := tr3 ++
                  [.readPrice fid, .readIsFresh fid, .readPriceAge fid,
                   .readMaxPriceAge, .readMaxDeviationBps]
                (tr4, .ok { value := env.contractPrice,
                            timestamp := env.contractTimestamp,
                            slot := env.contractSlot,
                            fresh := env.contractFresh,
                            age := env.contractAge,
                            maxPriceAge := env.contractMaxPriceAge,
                            maxDeviationBps := env.contractMaxDeviationBps })

/-- Embeds `main` (run.ts lines 324-343): exit code 0 on success, 1 on
any error, writing the error message and, when present, the stack trace
to the error stream.  `stack` models the runtime-provided `error.stack`
of the caught exception. -/
def mainRun (env : Env) (stack : Option String) : Nat × List String :=
  match (updatePrices env).2 with
  | .ok _ => (0, [])
  | .error e =>
    (1, [e.message] ++ (match stack with
                        | some s => ["Stack trace:", s]
                        | none => []))

/-- The conditions under which the workflow reaches the gateway-fetch
step: configuration valid, deployments file present, deployment entry
found. -/
def ReachesFetch (env : Env) : Prop :=
  env.rpcUrl ≠ "" ∧ env.privateKey ≠ "" ∧ (NETWORKS env.network).isSome = true ∧
  env.deploymentsExists = true ∧ (env.deployments (networkKey env.network)).isSome = true

instance (env : Env) : Decidable (ReachesFetch env) := by
  unfold ReachesFetch; infer_instance

/-- A concrete run environment in which every step succeeds; used as the
base point for concrete evaluations. -/
def baseEnv : Env :=
  { rpcUrl := "https://testnet-rpc.monad.xyz",
    privateKey := "0xkey",
    network := "monad-testnet",
    feedHash := ['a', 'b'],
    maxPriceAge := 300,
    maxDeviationBps := 1000,
    deploymentsExists := true,
    deployments := fun k => if k = "monadTestnet" then some "0xConsumer" else none,
    signerAddress := "0xSigner",
    balance := 100,
    gateway := { encoded := some ['e'], medianResponses := [42],
                 timestamp := 1700000000, slot := 7, numOracles := 3 },
    fee := 10,
    txOk := true,
    contractPrice := 42,
    contractTimestamp := 1700000000,
    contractSlot := 7,
    contractFresh := true,
    contractAge := 0,
    contractMaxPriceAge := 300,
    contractMaxDeviationBps := 1000 }

/-- A run environment whose signer balance is below the quoted fee. -/
def envLowBalance : Env := { baseEnv with balance := 3, fee := 10 }

/-- A run environment whose gateway response lacks the encoded payload. -/
def envNoEncoded : Env :=
  { baseEnv with
    gateway := { encoded := none, medianResponses := [42],
                 timestamp := 1700000000, slot := 7, numOracles := 3 } }

/-- A run environment whose deployments file is missing. -/
def envNoDeployments : Env := { baseEnv with deploymentsExists := false }

/-- A run environment with an empty RPC URL (configuration failure). -/
def envNoRpc : Env := { baseEnv with rpcUrl := "" }

/-- The default BTC/USD feed hash of the script without its '0x' prefix
(run.ts line 75). -/
def btcFeedHashBare : Str :=
  ("4cd1cad962425681af07b9254b7d804de3ca3446fbfd1371bb258d2c75059812").toList

/-- The same feed hash written with uppercase hex characters. -/
def upperFeedHash : Str :=
  ("4CD1CAD962425681AF07B9254B7D804DE3CA3446FBFD1371BB258D2C75059812").toList

/-- Whether a character is a hexadecimal digit (either case). -/
def isHexChar (c : Char) : Bool :=
  c.isDigit || ('a' ≤ c && c ≤ 'f') || ('A' ≤ c && c ≤ 'F')

/-! Helper lemmas: decimal digit strings. -/

theorem charToDigit_digitChar {d : Nat} (h : d < 10) :
    charToDigit (Nat.digitChar d) = d := by
  interval_cases d <;> rfl

theorem digitChar_isDigit {d : Nat} (h : d < 10) :
    (Nat.digitChar d).isDigit = true := by
  interval_cases d <;> decide

theorem isDigit_beq_dot {c : Char} (h : c.isDigit = true) : (c == '.') = false := by
  rw [beq_eq_false_iff_ne]
  rintro rfl
  exact absurd h (by decide)

theorem isDigit_ne_dash {c : Char} (h : c.isDigit = true) : c ≠ '-' := by
  rintro rfl
  exact absurd h (by decide)

theorem isDigit_ne_dot {c : Char} (h : c.isDigit = true) : c ≠ '.' := by
  rintro rfl
  exact absurd h (by decide)

theorem digitsVal_nil : digitsVal [] = 0 := rfl

theorem digitsVal_append_singleton (l : Str) (c : Char) :
    digitsVal (l ++ [c]) = digitsVal l * 10 + charToDigit c := by
  simp [digitsVal, List.foldl_append]

theorem foldl_digits_replicate_zero (k : Nat) (a : Nat) :
    List.foldl (fun a c => a * 10 + charToDigit c) a (List.replicate k '0')
      = a * 10 ^ k := by
  induction k generalizing a with
  | zero => simp
  | succ j ih =>
    rw [List.replicate_succ, List.foldl_cons, ih]
    have h0 : charToDigit '0' = 0 := rfl
    rw [h0]
    ring

theorem digitsVal_replicate_append (k : Nat) (l : Str) :
    digitsVal (List.replicate k '0' ++ l) = digitsVal l := by
  rw [digitsVal, List.foldl_append, foldl_digits_replicate_zero, Nat.zero_mul]
  rfl

theorem digitsVal_append_replicate (l : Str) (k : Nat) :
    digitsVal (l ++ List.replicate k '0') = digitsVal l * 10 ^ k := by
  rw [digitsVal, List.foldl_append, foldl_digits_replicate_zero]
  rfl

theorem digitsAux_zero (f : Nat) : digitsAux f 0 = [] := by
  cases f <;> simp [digitsAux]

theorem digitsAux_succ (f m : Nat) :
    digitsAux (f + 1) (m + 1) =
      digitsAux f ((m + 1) / 10) ++ [Nat.digitChar ((m + 1) % 10)] := by
  simp [digitsAux]

theorem digitsAux_val : ∀ n f, n ≤ f → digitsVal (digitsAux f n) = n := by
  intro n
  induction n using Nat.strong_induction_on with
  | _ n ih =>
    cases n with
    | zero =>
      intro f _
      rw [digitsAux_zero]
      rfl
    | succ m =>
      intro f hf
      cases f with
      | zero => omega
      | succ a =>
        have h1 : (m + 1) / 10 < m + 1 := Nat.div_lt_self (Nat.succ_pos m) (by norm_num)
        have h2 : (m + 1) / 10 ≤ a := by omega
        rw [digitsAux_succ, digitsVal_append_singleton, ih _ h1 a h2,
            charToDigit_digitChar (Nat.mod_lt _ (by norm_num))]
        omega

theorem digitsAux_all_isDigit : ∀ n f, n ≤ f → ∀ c ∈ digitsAux f n, c.isDigit = true := by
  intro n
  induction n using Nat.strong_induction_on with
  | _ n ih =>
    cases n with
    | zero =>
      intro f _ c hc
      rw [digitsAux_zero] at hc
      cases hc
    | succ m =>
      intro f hf c hc
      cases f with
      | zero => omega
      | succ a =>
        have h1 : (m + 1) / 10 < m + 1 := Nat.div_lt_self (Nat.succ_pos m) (by norm_num)
        have h2 : (m + 1) / 10 ≤ a := by omega
        rw [digitsAux_succ] at hc
        rcases List.mem_append.mp hc with h | h
        · exact ih _ h1 a h2 c h
        · have hc' : c = Nat.digitChar ((m + 1) % 10) := by simpa using h
          rw [hc']
          exact digitChar_isDigit (Nat.mod_lt _ (by norm_num))

theorem digitsAux_length : ∀ n f k, n ≤ f → n < 10 ^ k → (digitsAux f n).length ≤ k := by
  intro n
  induction n using Nat.strong_induction_on with
  | _ n ih =>
    cases n with
    | zero =>
      intro f k _ _
      rw [digitsAux_zero]
      simp
    | succ m =>
      intro f k hf hk
      cases f with
      | zero => omega
      | succ a =>
        cases k with
        | zero =>
          rw [pow_zero] at hk
          omega
        | succ j =>
          have h1 : (m + 1) / 10 < m + 1 := Nat.div_lt_self (Nat.succ_pos m) (by norm_num)
          have h2 : (m + 1) / 10 ≤ a := by omega
          have h3 : (m + 1) / 10 < 10 ^ j := by
            rw [Nat.div_lt_iff_lt_mul (by norm_num)]
            calc m + 1 < 10 ^ (j + 1) := hk
              _ = 10 ^ j * 10 := by ring
          have h4 := ih _ h1 a j h2 h3
          rw [digitsAux_succ]
          simp only [List.length_append, List.length_cons, List.length_nil]
          omega

theorem natToChars_val (n : Nat) : digitsVal (natToChars n) = n := by
  unfold natToChars
  split
  · next h => rw [h]; rfl
  · exact digitsAux_val n n le_rfl

theorem natToChars_all_isDigit (n : Nat) : ∀ c ∈ natToChars n, c.isDigit = true := by
  unfold natToChars
  split
  · intro c hc
    have : c = '0' := by simpa using hc
    rw [this]
    decide
  · exact digitsAux_all_isDigit n n le_rfl

theorem natToChars_ne_nil (n : Nat) : natToChars n ≠ [] := by
  unfold natToChars
  split
  · simp
  · next h =>
    cases n with
    | zero => exact absurd rfl h
    | succ m =>
      rw [digitsAux_succ]
      simp

theorem natToChars_length_le {n k : Nat} (hn : 0 < n) (h : n < 10 ^ k) :
    (natToChars n).length ≤ k := by
  unfold natToChars
  rw [if_neg (by omega)]
  exact digitsAux_length n n k le_rfl h

/-! Helper lemmas: takeWhile, dropWhile, trailing-zero trimming. -/

theorem takeWhile_append_all {p : Char → Bool} :
    ∀ (l r : Str), (∀ c ∈ l, p c = true) →
      (l ++ r).takeWhile p = l ++ r.takeWhile p := by
  intro l r h
  induction l with
  | nil => simp
  | cons a t ih =>
    rw [List.cons_append, List.takeWhile_cons, if_pos (h a (by simp)),
        ih (fun c hc => h c (by simp [hc])), List.cons_append]

theorem dropWhile_append_all {p : Char → Bool} :
    ∀ (l r : Str), (∀ c ∈ l, p c = true) →
      (l ++ r).dropWhile p = r.dropWhile p := by
  intro l r h
  induction l with
  | nil => simp
  | cons a t ih =>
    rw [List.cons_append, List.dropWhile_cons, if_pos (h a (by simp)),
        ih (fun c hc => h c (by simp [hc]))]

theorem takeWhile_all {p : Char → Bool} (l : Str) (h : ∀ c ∈ l, p c = true) :
    l.takeWhile p = l := by
  have := takeWhile_append_all l [] h
  simpa using this

theorem dropWhile_all {p : Char → Bool} (l : Str) (h : ∀ c ∈ l, p c = true) :
    l.dropWhile p = [] := by
  have := dropWhile_append_all l [] h
  simpa using this

theorem head?_dropWhile_false {p : Char → Bool} {l : Str} {c : Char}
    (h : (l.dropWhile p).head? = some c) : p c = false := by
  induction l with
  | nil => simp at h
  | cons a t ih =>
    rw [List.dropWhile_cons] at h
    by_cases hpa : p a = true
    · rw [if_pos hpa] at h
      exact ih h
    · rw [if_neg hpa] at h
      simp at h
      rw [← h]
      simpa using hpa

theorem dropTrailingZeros_decomp (s : Str) :
    ∃ k, s = dropTrailingZeros s ++ List.replicate k '0' ∧
         (dropTrailingZeros s).length + k = s.length := by
  refine ⟨(s.reverse.takeWhile (fun c => c == '0')).length, ?_, ?_⟩
  · have hrepl : (s.reverse.takeWhile (fun c => c == '0')).reverse
        = List.replicate (s.reverse.takeWhile (fun c => c == '0')).length '0' := by
      rw [List.eq_replicate_iff]
      refine ⟨by simp, ?_⟩
      intro b hb
      have hb' := List.mem_reverse.mp hb
      have := List.mem_takeWhile_imp hb'
      simpa [beq_iff_eq] using this
    conv_lhs => rw [← s.reverse_reverse,
      ← List.takeWhile_append_dropWhile (p := fun c => c == '0') (l := s.reverse)]
    rw [List.reverse_append, hrepl]
    rfl
  · unfold dropTrailingZeros
    have := congrArg List.length
      (List.takeWhile_append_dropWhile (p := fun c => c == '0') (l := s.reverse))
    simp only [List.length_append, List.length_reverse] at *
    omega

theorem dropTrailingZeros_getLast {s : Str} {c : Char}
    (h : (dropTrailingZeros s).getLast? = some c) : c ≠ '0' := by
  unfold dropTrailingZeros at h
  rw [List.getLast?_reverse] at h
  have := head?_dropWhile_false h
  simpa [beq_iff_eq] using this

/-! Helper lemmas: formatValue on nonnegative values. -/

theorem intToChars_coe (k : Nat) : intToChars (k : Int) = natToChars k := by
  unfold intToChars
  rw [if_neg (by exact Int.not_lt.mpr (Int.natCast_nonneg k)), Int.natAbs_ofNat]

theorem tdiv_coe (a b : Nat) : (a : Int).tdiv (b : Int) = ((a / b : Nat) : Int) := rfl

theorem tmod_coe (a b : Nat) : (a : Int).tmod (b : Int) = ((a % b : Nat) : Int) := rfl

theorem pow_ten_cast (d : Nat) : (10 : Int) ^ d = ((10 ^ d : Nat) : Int) := by
  push_cast
  ring

theorem formatValue_coe_dvd {n d : Nat} (h : n % 10 ^ d = 0) :
    formatValue (n : Int) d = natToChars (n / 10 ^ d) := by
  simp only [formatValue]
  rw [pow_ten_cast, tmod_coe, tdiv_coe,
      if_pos (by exact_mod_cast congrArg (Nat.cast : Nat → Int) h),
      intToChars_coe]

theorem formatValue_coe_not_dvd {n d : Nat} (h : n % 10 ^ d ≠ 0) :
    formatValue (n : Int) d =
      natToChars (n / 10 ^ d) ++ '.' ::
        dropTrailingZeros (padStart (natToChars (n % 10 ^ d)) d '0') := by
  simp only [formatValue]
  rw [pow_ten_cast, tmod_coe, tdiv_coe,
      if_neg (by exact_mod_cast fun hc => h (by exact_mod_cast hc)),
      intToChars_coe, intToChars_coe]

theorem fractionStr_length {F d : Nat} (hF : 0 < F) (hFd : F < 10 ^ d) :
    (padStart (natToChars F) d '0').length = d := by
  unfold padStart
  have hle := natToChars_length_le hF hFd
  simp only [List.length_append, List.length_replicate]
  omega

theorem fractionStr_val (F d : Nat) :
    digitsVal (padStart (natToChars F) d '0') = F := by
  unfold padStart
  rw [digitsVal_replicate_append, natToChars_val]

theorem fractionStr_all_isDigit (F d : Nat) :
    ∀ c ∈ padStart (natToChars F) d '0', c.isDigit = true := by
  intro c hc
  unfold padStart at hc
  rcases List.mem_append.mp hc with h | h
  · have : c = '0' := List.eq_of_mem_replicate h
    rw [this]
    decide
  · exact natToChars_all_isDigit F c h

theorem trimmed_spec {F d : Nat} (hF : 0 < F) (hFd : F < 10 ^ d) :
    ∃ k, (dropTrailingZeros (padStart (natToChars F) d '0')).length + k = d ∧
         digitsVal (dropTrailingZeros (padStart (natToChars F) d '0')) * 10 ^ k = F ∧
         dropTrailingZeros (padStart (natToChars F) d '0') ≠ [] ∧
         (∀ c ∈ dropTrailingZeros (padStart (natToChars F) d '0'), c.isDigit = true) := by
  obtain ⟨k, hdecomp, hlen⟩ := dropTrailingZeros_decomp (padStart (natToChars F) d '0')
  have hSlen := fractionStr_length hF hFd
  have hSval := fractionStr_val F d
  have hval : digitsVal (dropTrailingZeros (padStart (natToChars F) d '0')) * 10 ^ k = F := by
    rw [hdecomp, digitsVal_append_replicate] at hSval
    exact hSval
  refine ⟨k, by omega, hval, ?_, ?_⟩
  · intro hnil
    rw [hnil] at hval
    rw [digitsVal_nil] at hval
    simp at hval
    omega
  · intro c hc
    have hcS : c ∈ padStart (natToChars F) d '0' := by
      rw [hdecomp]
      exact List.mem_append_left _ hc
    exact fractionStr_all_isDigit F d c hcS

/-! Helper lemmas: parsing formatted values back. -/

theorem all_isDigit_not_dot {l : Str} (h : ∀ c ∈ l, c.isDigit = true) :
    ∀ c ∈ l, (fun c => !(c == '.')) c = true := by
  intro c hc
  simp [isDigit_beq_dot (h c hc)]

theorem parseScaledNat_natToChars (w d : Nat) :
    parseScaledNat (natToChars w) d = some (digitsVal (natToChars w) * 10 ^ d) := by
  have hdig := natToChars_all_isDigit w
  have hall := all_isDigit_not_dot hdig
  have hA : (natToChars w).all Char.isDigit = true := List.all_eq_true.mpr hdig
  simp only [parseScaledNat]
  rw [takeWhile_all _ hall, dropWhile_all _ hall, if_neg (natToChars_ne_nil w), hA]
  simp

theorem parseScaled_natToChars (w d : Nat) :
    parseScaled (natToChars w) d = some ((w * 10 ^ d : Nat) : Int) := by
  obtain ⟨c, t, hct⟩ := List.exists_cons_of_ne_nil (natToChars_ne_nil w)
  have hc : c.isDigit = true :=
    natToChars_all_isDigit w c (by rw [hct]; exact List.mem_cons_self c t)
  have hne : ¬ ((natToChars w).head? = some '-') := by
    rw [hct]
    simp only [List.head?_cons, Option.some.injEq]
    exact isDigit_ne_dash hc
  simp only [parseScaled]
  rw [if_neg hne, parseScaledNat_natToChars, natToChars_val]
  rfl

theorem parseScaledNat_format {w : Nat} {T : Str} {d : Nat}
    (hT : T ≠ []) (hTdig : ∀ c ∈ T, c.isDigit = true) (hlen : T.length ≤ d) :
    parseScaledNat (natToChars w ++ '.' :: T) d
      = some (digitsVal (natToChars w) * 10 ^ d + digitsVal T * 10 ^ (d - T.length)) := by
  have hdig := natToChars_all_isDigit w
  have hall := all_isDigit_not_dot hdig
  have hAint : (natToChars w).all Char.isDigit = true := List.all_eq_true.mpr hdig
  have hAT : T.all Char.isDigit = true := List.all_eq_true.mpr hTdig
  have h1 : List.takeWhile (fun c => !(c == '.')) ('.' :: T) = [] := rfl
  have h2 : List.dropWhile (fun c => !(c == '.')) ('.' :: T) = '.' :: T := rfl
  simp only [parseScaledNat]
  rw [takeWhile_append_all _ _ hall, dropWhile_append_all _ _ hall, h1, h2,
      List.append_nil, if_neg (natToChars_ne_nil w), hAint]
  simp only [Bool.not_true, Bool.false_eq_true, if_false]
  rw [if_neg hT, hAT]
  simp only [Bool.not_true, Bool.false_eq_true, if_false]
  rw [if_neg (show ¬ (d < T.length) by omega)]

theorem parseScaled_format {w : Nat} {T : Str} {d : Nat}
    (hT : T ≠ []) (hTdig : ∀ c ∈ T, c.isDigit = true) (hlen : T.length ≤ d) :
    parseScaled (natToChars w ++ '.' :: T) d
      = some ((w * 10 ^ d + digitsVal T * 10 ^ (d - T.length) : Nat) : Int) := by
  obtain ⟨c, t, hct⟩ := List.exists_cons_of_ne_nil (natToChars_ne_nil w)
  have hc : c.isDigit = true :=
    natToChars_all_isDigit w c (by rw [hct]; exact List.mem_cons_self c t)
  have hne : ¬ ((natToChars w ++ '.' :: T).head? = some '-') := by
    rw [hct]
    simp only [List.cons_append, List.head?_cons, Option.some.injEq]
    exact isDigit_ne_dash hc
  simp only [parseScaled]
  rw [if_neg hne, parseScaledNat_format hT hTdig hlen, natToChars_val]
  rfl

/-! Claim theorems: utility functions. -/

/-- C1: for every value of the network selector (including
'monad-mainnet'), the deployment lookup key used to index the
deployments file is the single fixed value 'monadTestnet'; the key does
not vary with the selected network configuration. -/
theorem C1_networkKey_constant (net : String) : networkKey net = "monadTestnet" := by
  unfold networkKey
  split <;> rfl

/-- C2 counterexample: normalizing an all-uppercase hex feed identifier
leaves its hex characters uppercase, so the output is not in lowercase
form; this refutes the claim that normalization produces a canonical
prefixed lowercase string. -/
theorem C2_counterexample_uppercase :
    normalizeFeedHash upperFeedHash = '0' :: 'x' :: upperFeedHash ∧
    'A' ∈ normalizeFeedHash upperFeedHash ∧
    'A'.isUpper = true ∧ isHexChar 'A' = true := by
  refine ⟨rfl, by decide, by decide, by decide⟩

/-- C2 (amended): normalization produces a '0x'-prefixed output but
preserves the case of the hex characters: the result is either the
input itself (already prefixed) or the input with '0x' prepended, with
no lowercasing. -/
theorem C2_normalize_prefixed_case_preserving (s : Str) :
    startsWith0x (normalizeFeedHash s) = true ∧
    (normalizeFeedHash s = s ∨ normalizeFeedHash s = '0' :: 'x' :: s) := by
  unfold normalizeFeedHash
  by_cases h : startsWith0x s = true
  · rw [if_pos h]
    exact ⟨h, Or.inl rfl⟩
  · rw [if_neg h]
    exact ⟨rfl, Or.inr rfl⟩

/-- C4: feed-identifier normalization is idempotent: an already-prefixed
identifier is returned unchanged, an unprefixed 64-hex-character
identifier gets the prefix prepended exactly once, and
normalizeFeedHash (normalizeFeedHash s) = normalizeFeedHash s for every
input string s. -/
theorem C4_normalize_idempotent (s : Str) :
    (startsWith0x s = true → normalizeFeedHash s = s) ∧
    (startsWith0x s = false → s.length = 64 → (∀ c ∈ s, isHexChar c = true) →
       normalizeFeedHash s = '0' :: 'x' :: s) ∧
    normalizeFeedHash (normalizeFeedHash s) = normalizeFeedHash s := by
  refine ⟨?_, ?_, ?_⟩
  · intro h
    unfold normalizeFeedHash
    rw [if_pos h]
  · intro h _ _
    unfold normalizeFeedHash
    rw [if_neg (by simp [h])]
  · by_cases h : startsWith0x s = true
    · simp [normalizeFeedHash, h]
    · have h' : ¬ (startsWith0x s = true) := h
      have hpre : startsWith0x ('0' :: 'x' :: s) = true := rfl
      simp [normalizeFeedHash, h', hpre]

/-- C4 witness: the default BTC/USD feed hash without prefix is a
64-character hex string and normalization prepends the prefix once. -/
theorem C4_normalize_witness :
    normalizeFeedHash btcFeedHashBare = '0' :: 'x' :: btcFeedHashBare :=
  (C4_normalize_idempotent btcFeedHashBare).2.1 (by decide) (by decide) (by decide)

/-! Claim theorems: fixed-point formatting. -/

/-- C3 counterexample: formatValue applied to the negative scaled value
-5 at the 18-decimal scale yields the malformed string
"0.0000000000000000-5" (the sign is swallowed into the padded fraction),
which does not re-parse to any integer, let alone -5. -/
theorem C3_counterexample_negative :
    formatValue (-5 : Int) 18 = ['0', '.'] ++ List.replicate 16 '0' ++ ['-', '5'] ∧
    parseScaled (formatValue (-5 : Int) 18) 18 = none := by
  constructor <;> rfl

/-- C3 (amended to nonnegative values): formatting a nonnegative scaled
integer value with formatValue at the 18-decimal scale and re-parsing
the resulting decimal string at the same scale yields the original
integer. -/
theorem C3_formatValue_roundtrip_nonneg (v : Int) (h : 0 ≤ v) :
    parseScaled (formatValue v 18) 18 = some v := by
  obtain ⟨n, rfl⟩ := Int.eq_ofNat_of_zero_le h
  by_cases hd : n % 10 ^ 18 = 0
  · rw [formatValue_coe_dvd hd, parseScaled_natToChars]
    congr 1
    exact_mod_cast Nat.div_mul_cancel (Nat.dvd_of_mod_eq_zero hd)
  · have hpos : 0 < n % 10 ^ 18 := Nat.pos_of_ne_zero hd
    have hlt : n % 10 ^ 18 < 10 ^ 18 := Nat.mod_lt _ (by positivity)
    obtain ⟨k, hlen, hval, hne, hdig⟩ := trimmed_spec hpos hlt
    rw [formatValue_coe_not_dvd hd, parseScaled_format hne hdig (by omega)]
    have hk : 18 - (dropTrailingZeros (padStart (natToChars (n % 10 ^ 18)) 18 '0')).length
        = k := by omega
    have h3 : n / 10 ^ 18 * 10 ^ 18 + n % 10 ^ 18 = n := by
      have := Nat.div_add_mod n (10 ^ 18)
      omega
    rw [hk, hval, h3]

/-- C3 witness: the round trip at the concrete value 1.5 scaled by
10^18. -/
theorem C3_roundtrip_witness :
    parseScaled (formatValue (1500000000000000000 : Int) 18) 18
      = some (1500000000000000000 : Int) :=
  C3_formatValue_roundtrip_nonneg (1500000000000000000 : Int) (by decide)

/-- C10: for every nonnegative value, formatValue produces a canonical
decimal string: it contains a decimal point iff the value is not
divisible by 10^decimals, and when present the fractional part is
nonempty and does not end in the digit '0'. -/
theorem C10_formatValue_canonical (v : Int) (d : Nat) (h : 0 ≤ v) :
    (('.' ∈ formatValue v d) ↔ ¬ ((10 : Int) ^ d ∣ v)) ∧
    (¬ ((10 : Int) ^ d ∣ v) →
       fracPart (formatValue v d) ≠ [] ∧
       ∀ c, (fracPart (formatValue v d)).getLast? = some c → c ≠ '0') := by
  obtain ⟨n, rfl⟩ := Int.eq_ofNat_of_zero_le h
  have hdvd : ((10 : Int) ^ d ∣ (n : Int)) ↔ n % 10 ^ d = 0 := by
    rw [pow_ten_cast, Int.natCast_dvd_natCast]
    exact Nat.dvd_iff_mod_eq_zero
  by_cases hd : n % 10 ^ d = 0
  · rw [formatValue_coe_dvd hd]
    have hdv : (10 : Int) ^ d ∣ (n : Int) := hdvd.mpr hd
    have hnodot : ¬ ('.' ∈ natToChars (n / 10 ^ d)) := by
      intro hmem
      exact absurd (natToChars_all_isDigit _ '.' hmem) (by decide)
    exact ⟨⟨fun hm => absurd hm hnodot, fun hc => absurd hdv hc⟩,
           fun hc => absurd hdv hc⟩
  · have hpos : 0 < n % 10 ^ d := Nat.pos_of_ne_zero hd
    have hlt : n % 10 ^ d < 10 ^ d := Nat.mod_lt _ (by positivity)
    obtain ⟨k, hlen, hval, hne, hdig⟩ := trimmed_spec hpos hlt
    rw [formatValue_coe_not_dvd hd]
    have hfrac : fracPart (natToChars (n / 10 ^ d) ++ '.' ::
        dropTrailingZeros (padStart (natToChars (n % 10 ^ d)) d '0'))
        = dropTrailingZeros (padStart (natToChars (n % 10 ^ d)) d '0') := by
      unfold fracPart
      rw [dropWhile_append_all _ _ (all_isDigit_not_dot (natToChars_all_isDigit _))]
      rfl
    refine ⟨⟨fun _ => fun hdv => hd (hdvd.mp hdv),
             fun _ => List.mem_append_right _ (List.mem_cons_self _ _)⟩, ?_⟩
    intro _
    rw [hfrac]
    exact ⟨hne, fun c hc => dropTrailingZeros_getLast hc⟩

/-- C10 witness: 15 at scale 1 formats to "1.5", which contains a
decimal point. -/
theorem C10_canonical_witness : '.' ∈ formatValue (15 : Int) 1 :=
  ((C10_formatValue_canonical 15 1 (by decide)).1).mpr (by decide)

/-! Claim theorems: workflow behaviour. -/

/-- C5: in every run that reaches the fee step with a signer balance
strictly below the quoted fee, the workflow fails with the explicit
shortfall error carrying both the needed and the available amounts (its
message interpolates both), and no update transaction is ever
submitted. -/
theorem C5_balance_guard (env : Env) (hr : ReachesFetch env)
    (hok : (fetchFeedData env.gateway env.feedHash).isOk = true)
    (hlt : env.balance < env.fee) :
    (updatePrices env).2 = .error (.insufficientBalance env.fee env.balance) ∧
    (∀ p f val, Event.submitTx p f val ∉ (updatePrices env).1) ∧
    WError.message (.insufficientBalance env.fee env.balance) =
      "❌ Insufficient balance. Need " ++ formatEtherS env.fee ++ " ETH, have "
        ++ formatEtherS env.balance ++ " ETH" := by
  obtain ⟨h1, h2, h3, h4, h5⟩ := hr
  obtain ⟨cfg, hcfg⟩ := Option.isSome_iff_exists.mp h3
  obtain ⟨addr, haddr⟩ := Option.isSome_iff_exists.mp h5
  obtain ⟨fd, hfd⟩ : ∃ fd, fetchFeedData env.gateway env.feedHash = .ok fd := by
    cases hfe : fetchFeedData env.gateway env.feedHash with
    | ok fd => exact ⟨fd, rfl⟩
    | error e =>
      rw [hfe] at hok
      exact absurd hok (by simp [Except.isOk, Except.toBool])
  unfold updatePrices
  rw [if_neg h1, if_neg h2, hcfg, if_neg (by simp [h4]), haddr, hfd]
  dsimp only
  rw [if_pos hlt]
  refine ⟨rfl, ?_, rfl⟩
  intro p f val hmem
  simp at hmem

/-- C5 witness: in the concrete low-balance run, the workflow ends with
the shortfall error for fee 10 wei against balance 3 wei. -/
theorem C5_balance_guard_witness :
    (updatePrices envLowBalance).2 = .error (.insufficientBalance 10 3) :=
  (C5_balance_guard envLowBalance (by decide) rfl (by decide)).1

/-- C6: in every run that reaches the gateway fetch, a response lacking
the encoded payload, or lacking a first median response, makes the
workflow fail with a wrapped fetch error naming the missing field, the
gateway is called exactly once (no retry), and the wrapping prefixes the
inner message with the fetch-step context. -/
theorem C6_gateway_shape_errors (env : Env) (hr : ReachesFetch env)
    (hbad : env.gateway.encoded = none ∨ env.gateway.medianResponses = []) :
    (updatePrices env).2 = .error (.fetchFailed
      (if env.gateway.encoded = none then "No encoded data in response"
       else "No median response in data")) ∧
    ((updatePrices env).1.countP
      (fun e => match e with | .gatewayFetch _ _ => true | _ => false) = 1) ∧
    (∀ m, WError.message (.fetchFailed m) = "Failed to fetch feed data: " ++ m) := by
  obtain ⟨h1, h2, h3, h4, h5⟩ := hr
  obtain ⟨cfg, hcfg⟩ := Option.isSome_iff_exists.mp h3
  obtain ⟨addr, haddr⟩ := Option.isSome_iff_exists.mp h5
  have hfd : fetchFeedData env.gateway env.feedHash = .error (.fetchFailed
      (if env.gateway.encoded = none then "No encoded data in response"
       else "No median response in data")) := by
    unfold fetchFeedData
    rcases hbad with hb | hb
    · rw [hb, if_pos rfl]
    · cases henc : env.gateway.encoded with
      | none => rw [if_pos rfl]
      | some enc =>
        rw [hb, if_neg (by simp [henc])]
        simp
  unfold updatePrices
  rw [if_neg h1, if_neg h2, hcfg, if_neg (by simp [h4]), haddr, hfd]
  dsimp only
  refine ⟨rfl, rfl, fun m => rfl⟩

/-- C6 witness: the concrete run whose gateway response has no encoded
payload fails with the wrapped error naming the encoded field. -/
theorem C6_gateway_shape_witness :
    (updatePrices envNoEncoded).2
      = .error (.fetchFailed "No encoded data in response") := by
  have h := (C6_gateway_shape_errors envNoEncoded (by decide) (Or.inl rfl)).1
  simpa using h

/-- C7: whenever the deployments file does not exist, the workflow
terminates with an error before any network call is attempted: the
trace of issued network calls is empty and the outcome is an error. -/
theorem C7_missing_deployments_no_network (env : Env)
    (h : env.deploymentsExists = false) :
    (updatePrices env).1 = [] ∧ ∃ e, (updatePrices env).2 = .error e := by
  unfold updatePrices
  rw [h, if_pos rfl]
  split
  · exact ⟨rfl, _, rfl⟩
  · split
    · exact ⟨rfl, _, rfl⟩
    · split
      · exact ⟨rfl, _, rfl⟩
      · exact ⟨rfl, _, rfl⟩

/-- C7 witness: the concrete run with the deployments file missing
issues no network call. -/
theorem C7_missing_deployments_witness :
    (updatePrices envNoDeployments).1 = [] :=
  (C7_missing_deployments_no_network envNoDeployments rfl).1

/-- C8: the process exits with code 0 exactly when the whole workflow
succeeds, and with code 1 on any failure, writing the error message and,
when present, the stack trace to the error stream. -/
theorem C8_exit_code_contract (env : Env) (stack : Option String) :
    ((mainRun env stack).1 = 0 ↔ (updatePrices env).2.isOk = true) ∧
    (∀ e, (updatePrices env).2 = .error e →
      (mainRun env stack).1 = 1 ∧ e.message ∈ (mainRun env stack).2 ∧
      ∀ s, stack = some s → s ∈ (mainRun env stack).2) := by
  unfold mainRun
  cases hres : (updatePrices env).2 with
  | ok r =>
    refine ⟨by simp [Except.isOk, Except.toBool], ?_⟩
    intro e he
    cases he
  | error e0 =>
    refine ⟨by simp [Except.isOk, Except.toBool], ?_⟩
    intro e he
    cases he
    refine ⟨rfl, by simp, ?_⟩
    intro s hs
    subst hs
    simp

/-- C8 witness: the concrete run with an empty RPC URL exits with
code 1. -/
theorem C8_exit_code_witness : (mainRun envNoRpc none).1 = 1 :=
  ((C8_exit_code_contract envNoRpc none).2 .missingRpcUrl rfl).1

/-- C9: the parsed MAX_PRICE_AGE and MAX_DEVIATION_BPS configuration
values have no effect on the workflow: two runs differing only in these
two values issue identical network calls, produce identical outcomes,
and exit identically (the reported thresholds come from the contract
view-call results, not from the configuration). -/
theorem C9_thresholds_unused (env : Env) (a₁ d₁ a₂ d₂ : Int) (stack : Option String) :
    updatePrices { env with maxPriceAge := a₁, maxDeviationBps := d₁ } =
      updatePrices { env with maxPriceAge := a₂, maxDeviationBps := d₂ } ∧
    mainRun { env with maxPriceAge := a₁, maxDeviationBps := d₁ } stack =
      mainRun { env with maxPriceAge := a₂, maxDeviationBps := d₂ } stack := by
  cases env
  exact ⟨rfl, rfl⟩
